import Mathlib

/-!
# Shallow embedding of the mongo-migrate core

This file embeds the migration orchestration core of the repository
(`migrate.go`, `migration.go`, `versions.go`) and settles the stated
properties against it.

Mapping notes (each definition cites the source lines it embeds):

* The ledger (the `migrations` collection) is a list of inserted
  documents, in insertion order.  `SetVersion` (migrate.go 142-155)
  appends one document.  The document timestamp is elided: no property
  below depends on it.  Store I/O failures are external nondeterminism
  and are not modelled; ledger writes succeed in the model.
* The current database version is "the version in the latest added
  document (biggest _id)" (doc comment, migrate.go 26-30; the query,
  `FindOne` sorted by `_id` descending, appears in versions.go 74-95):
  the greatest id among ledger documents, `0` for an empty ledger.
* Migration actions are Go closures over the database handle.  Their
  presence (`mn.Up == nil` / `mn.Down == nil` checks) is modelled by two
  Booleans, and the outcome of invoking an action by an oracle mapping
  the migration id to `none` (success) or `some cause` (failure).
* Go's `sort.Slice` with the comparators of `Migrations.Sort`
  (migration.go 28-34) is modelled by insertion sort on the same key;
  for the unique-id inputs the properties quantify over the result is
  the unique sorted arrangement either way.
* `Down` (migrate.go 195-252) contains two consecutive loops; both are
  embedded in sequence, exactly as written.  The first loop declares a
  predecessor variable `prev` (migrate.go 219-224) and then does not use
  it, writing `mn.Version` itself (migrate.go 226); the embedding keeps
  that behaviour.  The second loop (migrate.go 231-250) reads variables
  that are not declared in the function (`currentVersion`); it is
  embedded with the only referent in scope, `curVer`.
-/

namespace Migrate

/-- A ledger record, `Version` in migration.go 10-14 (fields `ID uint`
with bson key `_id`, and `Description`; the `Timestamp` is elided, no
property depends on it). -/
structure Version where
  id : Nat
  description : String
deriving DecidableEq

/-- A migration, `Migration` in migration.go 19-24: the embedded
`Version` identity plus the presence of the `Up` / `Down` actions
(`hasUp` models `Up != nil`, `hasDown` models `Down != nil`). -/
structure Migration where
  id : Nat
  description : String
  hasUp : Bool
  hasDown : Bool
deriving DecidableEq

/-- Outcome oracle for migration actions: the error, if any, that the
action of the migration with the given id reports when invoked. -/
abbrev ActOracle : Type := Nat → Option String

/-- The ledger: the `migrations` collection as a list of inserted
documents, oldest first. -/
abbrev Ledger : Type := List Version

/-- `SetVersion` (migrate.go 142-155): build a record from the given
version number and description and insert it into the collection. -/
def SetVersion (led : Ledger) (version : Nat) (description : String) : Ledger :=
  led ++ [⟨version, description⟩]

/-- The derived current database version: the greatest `_id` among the
ledger documents, `0` when the ledger is empty (migrate.go 26-30;
versions.go 74-95: `FindOne` sorted by `_id` descending, and
`mongo.ErrNoDocuments` mapped to `0`). -/
def currentVersion (led : Ledger) : Nat :=
  led.foldr (fun r acc => max r.id acc) 0

/-- Ascending comparison key of `Migrations.Sort()` (migration.go 33). -/
abbrev ascLe (a b : Migration) : Prop := a.id ≤ b.id

/-- Descending comparison key of `Migrations.Sort(-1)` (migration.go 30). -/
abbrev descLe (a b : Migration) : Prop := b.id ≤ a.id

/-- `Migrations.Sort()` without argument: ascending by id. -/
def sortAsc (ms : List Migration) : List Migration :=
  List.insertionSort ascLe ms

/-- `Migrations.Sort(-1)`: descending by id. -/
def sortDesc (ms : List Migration) : List Migration :=
  List.insertionSort descLe ms

/-- Result of an `Up` / `Down` call. `actionErr fromVer cause` is
`errors.Wrapf(err, "migrate on version ...", curVer)` (migrate.go 182,
216): the wrap names the version migrated from and keeps the cause.
`rawErr` is the unwrapped `return err` of the second `Down` loop
(migrate.go 238, 248). -/
inductive RunResult where
  | ok : RunResult
  | actionErr : Nat → String → RunResult
  | rawErr : String → RunResult
deriving DecidableEq

/-- Observable outcome of one `Up` / `Down` call: the final ledger, the
ids whose action was invoked in order (`trace`), the ledger as it stood
right after each successful step's `SetVersion` write paired with that
step's migration id (`snaps`), and the returned result. -/
structure RunOut where
  ledger : Ledger
  trace : List Nat
  snaps : List (Nat × Ledger)
  result : RunResult
deriving DecidableEq

/-- The clamp of `n` (migrate.go 166-168 and 200-202): `n <= 0` or
`n > len(migrations)` means the whole set size. -/
def clampN (n : Int) (len : Nat) : Nat :=
  if n ≤ 0 ∨ (len : Int) < n then len else n.toNat

/-- The loop of `Up` (migrate.go 172-187), over the sorted migrations:
the budget `n` is decremented on every iteration, before the skip test
`mn.Version.ID <= curVer || mn.Up == nil`; on action failure the wrapped
error is returned at once; on success the migration's own id and
description are written via `SetVersion`. -/
def upGo (act : ActOracle) (curVer : Nat) :
    List Migration → Nat → Ledger → RunOut
  | [], _, led => ⟨led, [], [], .ok⟩
  | _ :: _, 0, led => ⟨led, [], [], .ok⟩
  | m :: rest, n + 1, led =>
    if m.id ≤ curVer ∨ ¬ m.hasUp then
      upGo act curVer rest n led
    else
      match act m.id with
      | some e => ⟨led, [m.id], [], .actionErr curVer e⟩
      | none =>
        let led' := SetVersion led m.id m.description
        let r := upGo act curVer rest n led'
        ⟨r.ledger, m.id :: r.trace, (m.id, led') :: r.snaps, r.result⟩

/-- `migrator.Up` (migrate.go 160-190): read the current version, clamp
`n`, sort ascending, run the loop. -/
def Up (ms : List Migration) (act : ActOracle) (led : Ledger) (n : Int) : RunOut :=
  upGo act (currentVersion led) (sortAsc ms) (clampN n ms.length) led

/-- The first loop of `Down` (migrate.go 206-229), over the migrations
sorted descending: the budget `n` is decremented on every iteration,
before the skip test `mn.Version <= curVer || mn.Down == nil`; on
backward-action failure the wrapped error is returned; on success the
loop computes a predecessor `prev` (migrate.go 219-224) that it never
uses and writes `mn.Version`, `mn.Description` — the reverted
migration's own id — via `SetVersion` (migrate.go 226).  Besides the
`RunOut` it yields the remaining value of `n`, which the second loop
reads. -/
def downLoop1 (act : ActOracle) (curVer : Nat) :
    List Migration → Nat → Ledger → RunOut × Nat
  | [], n, led => (⟨led, [], [], .ok⟩, n)
  | _ :: _, 0, led => (⟨led, [], [], .ok⟩, 0)
  | m :: rest, n + 1, led =>
    if m.id ≤ curVer ∨ ¬ m.hasDown then
      downLoop1 act curVer rest n led
    else
      match act m.id with
      | some e => (⟨led, [m.id], [], .actionErr curVer e⟩, n)
      | none =>
        let led' := SetVersion led m.id m.description
        let r := downLoop1 act curVer rest n led'
        (⟨r.1.ledger, m.id :: r.1.trace, (m.id, led') :: r.1.snaps, r.1.result⟩, r.2)

/-- A zero `Migration`, the value of `Migration{Version: 0}` used as the
rollback sentinel in `Down` (migrate.go 221, 243). -/
def zeroMigration : Migration := ⟨0, "", false, false⟩

/-- The second loop of `Down` (migrate.go 231-250): indices walked from
`len(m.migrations)-1` down to `0` over the descending-sorted array,
guarded by `p < n` where `n` is whatever the first loop left; skip when
`migration.Version > currentVersion || migration.Down == nil`; `p`
counts only non-skipped migrations; errors are returned unwrapped; on
success the record written is `m.migrations[i-1]`'s id and description,
or the zero sentinel at `i == 0`.  The first argument of the recursion
is `i + 1`, so `0` means the index has run out. -/
def downLoop2 (act : ActOracle) (curVer : Nat) (arr : List Migration) :
    Nat → Nat → Nat → Ledger → RunOut
  | 0, _, _, led => ⟨led, [], [], .ok⟩
  | i + 1, p, n, led =>
    if n ≤ p then ⟨led, [], [], .ok⟩
    else
      let m := arr.getD i zeroMigration
      if curVer < m.id ∨ ¬ m.hasDown then
        downLoop2 act curVer arr i p n led
      else
        match act m.id with
        | some e => ⟨led, [m.id], [], .rawErr e⟩
        | none =>
          let prev := if i = 0 then zeroMigration else arr.getD (i - 1) zeroMigration
          let led' := SetVersion led prev.id prev.description
          let r := downLoop2 act curVer arr i (p + 1) n led'
          ⟨r.ledger, m.id :: r.trace, (prev.id, led') :: r.snaps, r.result⟩

/-- `migrator.Down` (migrate.go 195-252): read the current version,
clamp `n`, sort descending, run the first loop and — unless it returned
an error — the second loop on what remains of the budget. -/
def Down (ms : List Migration) (act : ActOracle) (led : Ledger) (n : Int) : RunOut :=
  let curVer := currentVersion led
  let sorted := sortDesc ms
  let o1 := downLoop1 act curVer sorted (clampN n ms.length) led
  match o1.1.result with
  | .ok =>
    let o2 := downLoop2 act curVer sorted sorted.length 0 o1.2 o1.1.ledger
    ⟨o2.ledger, o1.1.trace ++ o2.trace, o1.1.snaps ++ o2.snaps, o2.result⟩
  | r => ⟨o1.1.ledger, o1.1.trace, o1.1.snaps, r⟩

/-- Outcome of a Go call that may panic. -/
inductive GoCall (α : Type) where
  | ok : α → GoCall α
  | panicked : String → GoCall α
deriving DecidableEq

/-- The document `FindOne` returns under sort `{_id: -1}`: the record
with the greatest `_id` (versions.go 75-80; `_id` is unique in the
store, and on equal ids the model keeps the earliest record). -/
def latestRecord : Ledger → Option Version
  | [] => none
  | r :: rs => some (rs.foldl (fun acc x => if acc.id < x.id then x else acc) r)

namespace versions

/-- `versions.Get` as written (versions.go 74-95): the body queries
`FindOne` with an empty filter sorted by `_id` descending — the comment
in it says "find record with greatest id" — so the result is the
greatest-id record (or the no-document sentinel on an empty ledger),
whatever the `id` argument. -/
def Get (led : Ledger) (id : Int) : Option Version :=
  latestRecord led

/-- `versions.Current` as written (versions.go 69-72): the body is
`panic("implement me")`. -/
def Current (led : Ledger) : GoCall (Option Version) :=
  .panicked "implement me"

end versions

/-- `migrator.Version` as written (migrate.go 137-139): it delegates to
`versions.Current`, and therefore panics on every ledger. -/
def migrator.Version (led : Ledger) : GoCall (Option Version) :=
  versions.Current led

/-! ## Slices and construction

`NewMigrate` (migrate.go 51-62) stores `slices.Clone(migrations)`, and
`Migrations.Sort` (migration.go 28-34) reorders its receiver in place.
To state what that does to the caller's slice, slices are modelled as
references into a store of backing arrays. -/

/-- The store of slice backing arrays; a slice value is an index into
it. -/
abbrev Heap : Type := List (List Migration)

/-- Read the elements a slice designates. -/
def readSlice (h : Heap) (s : Nat) : List Migration :=
  h.getD s []

/-- Allocate a fresh backing array holding the given elements. -/
def allocSlice (h : Heap) (l : List Migration) : Heap × Nat :=
  (h ++ [l], h.length)

/-- `slices.Clone` (migrate.go 59): a fresh backing array with a copy of
the source slice's elements. -/
def slicesClone (h : Heap) (s : Nat) : Heap × Nat :=
  allocSlice h (readSlice h s)

/-- The `migrator` struct's `migrations` field (migrate.go 31-34), as
the slice it holds. -/
structure MigratorRef where
  migrations : Nat
deriving DecidableEq

/-- `NewMigrate` (migrate.go 51-62): the stored migration set is
`slices.Clone(migrations)` (the `versions` field and the collection-name
options are orthogonal to the migration slice and elided). -/
def NewMigrate (h : Heap) (migrations : Nat) : Heap × MigratorRef :=
  let p := slicesClone h migrations
  (p.1, ⟨p.2⟩)

/-- `Migrations.Sort()` performed in place on a slice, as `Up` does
(migrate.go 170, migration.go 33). -/
def sortSliceAsc (h : Heap) (s : Nat) : Heap :=
  h.set s (sortAsc (readSlice h s))

/-- `Migrations.Sort(-1)` performed in place on a slice, as `Down` does
(migrate.go 204, migration.go 30). -/
def sortSliceDesc (h : Heap) (s : Nat) : Heap :=
  h.set s (sortDesc (readSlice h s))

/-! ## Properties -/

instance : IsTotal Migration ascLe := ⟨fun a b => Nat.le_total a.id b.id⟩

instance : IsTrans Migration ascLe := ⟨fun _ _ _ h h' => Nat.le_trans h h'⟩

instance : IsTotal Migration descLe := ⟨fun a b => Nat.le_total b.id a.id⟩

instance : IsTrans Migration descLe := ⟨fun _ _ _ h h' => Nat.le_trans h' h⟩

/-- C1: with migration set `{id 1}` (both actions present and
succeeding) and an empty initial ledger, `Up(AllAvailable)` records
version `1`, but the subsequent `Down(AllAvailable)` succeeds while
leaving the recorded current version at `1`, not the sentinel `0`: the
first `Down` loop skips every migration with `id ≤ curVer` — exactly the
applied ones — while draining the whole budget, and the second loop then
finds its budget already exhausted. -/
theorem c1_up_then_down_keeps_version_one :
    currentVersion (Up [⟨1, "one", true, true⟩] (fun _ => none) [] (-1)).ledger = 1 ∧
    (Up [⟨1, "one", true, true⟩] (fun _ => none) [] (-1)).result = .ok ∧
    (Down [⟨1, "one", true, true⟩] (fun _ => none)
      (Up [⟨1, "one", true, true⟩] (fun _ => none) [] (-1)).ledger (-1)).result = .ok ∧
    currentVersion (Down [⟨1, "one", true, true⟩] (fun _ => none)
      (Up [⟨1, "one", true, true⟩] (fun _ => none) [] (-1)).ledger (-1)).ledger = 1 := by
  decide

/-- C2: on an empty ledger (current version `0`) and the set `{id 1}`
with a backward action, `Down(AllAvailable)` performs a successful down
step for the migration at ascending sorted position `0` — its backward
action is invoked (`trace = [1]`) and the call returns ok — yet the
ledger record written is `{id 1}`, the reverted migration's own id,
where the claim requires the sentinel id `0`. -/
theorem c2_down_writes_own_id :
    (Down [⟨1, "one", false, true⟩] (fun _ => none) [] (-1)).trace = [1] ∧
    (Down [⟨1, "one", false, true⟩] (fun _ => none) [] (-1)).result = .ok ∧
    (Down [⟨1, "one", false, true⟩] (fun _ => none) [] (-1)).ledger =
      [⟨1, "one"⟩] := by
  decide

/-- C3: with the set `{id 1, id 3, id 5}` (all forward actions present
and succeeding) and recorded current version `1`, `Up(1)` invokes no
forward action and leaves the ledger untouched, so the recorded version
stays `1` instead of becoming `3`: the loop decrements the budget `n`
before the skip test, so skipping the already-applied `id 1` consumes
the whole budget. -/
theorem c3_skip_consumes_budget :
    (Up [⟨1, "", true, true⟩, ⟨3, "", true, true⟩, ⟨5, "", true, true⟩]
      (fun _ => none) [⟨1, ""⟩] 1).trace = [] ∧
    (Up [⟨1, "", true, true⟩, ⟨3, "", true, true⟩, ⟨5, "", true, true⟩]
      (fun _ => none) [⟨1, ""⟩] 1).ledger = [⟨1, ""⟩] ∧
    currentVersion (Up [⟨1, "", true, true⟩, ⟨3, "", true, true⟩, ⟨5, "", true, true⟩]
      (fun _ => none) [⟨1, ""⟩] 1).ledger = 1 := by
  decide

/-- C8: on a ledger holding records with ids `1` and `3`, `Get 1` does
not return the record with the requested id `1`: as written, the body
queries the greatest-`_id` record regardless of the argument, so the
`{id 3}` record comes back. -/
theorem c8_get_ignores_argument :
    versions.Get [⟨1, "a"⟩, ⟨3, "b"⟩] 1 = some ⟨3, "b"⟩ ∧
    versions.Get [⟨1, "a"⟩, ⟨3, "b"⟩] 1 ≠ some ⟨1, "a"⟩ := by
  decide

/-- C9: on an empty ledger, `Current` does not return the "no version"
result with a nil error: as written, the body unconditionally panics
with "implement me". -/
theorem c9_current_panics :
    versions.Current ([] : Ledger) = .panicked "implement me" ∧
    versions.Current ([] : Ledger) ≠ .ok none := by
  decide

/-- Unfolding `upGo` on the empty list. -/
theorem upGo_nil (act : ActOracle) (c : Nat) (n : Nat) (led : Ledger) :
    upGo act c [] n led = ⟨led, [], [], .ok⟩ := by
  cases n <;> rfl

/-- Unfolding `upGo` on an exhausted budget. -/
theorem upGo_zero (act : ActOracle) (c : Nat) (m : Migration) (rest : List Migration)
    (led : Ledger) : upGo act c (m :: rest) 0 led = ⟨led, [], [], .ok⟩ := rfl

/-- Unfolding `downLoop1` on the empty list. -/
theorem downLoop1_nil (act : ActOracle) (c : Nat) (n : Nat) (led : Ledger) :
    downLoop1 act c [] n led = (⟨led, [], [], .ok⟩, n) := by
  cases n <;> rfl

/-- Unfolding `downLoop1` on an exhausted budget. -/
theorem downLoop1_zero (act : ActOracle) (c : Nat) (m : Migration) (rest : List Migration)
    (led : Ledger) : downLoop1 act c (m :: rest) 0 led = (⟨led, [], [], .ok⟩, 0) := rfl

/-- Unfolding `upGo` on a skipped migration. -/
theorem upGo_skip (act : ActOracle) (c : Nat) (m : Migration) (rest : List Migration)
    (n : Nat) (led : Ledger) (h : m.id ≤ c ∨ ¬ m.hasUp) :
    upGo act c (m :: rest) (n + 1) led = upGo act c rest n led := by
  rw [upGo, if_pos h]

/-- Unfolding `upGo` on a failing forward action. -/
theorem upGo_fail (act : ActOracle) (c : Nat) (m : Migration) (rest : List Migration)
    (n : Nat) (led : Ledger) (e : String) (h : ¬ (m.id ≤ c ∨ ¬ m.hasUp))
    (hact : act m.id = some e) :
    upGo act c (m :: rest) (n + 1) led = ⟨led, [m.id], [], .actionErr c e⟩ := by
  rw [upGo, if_neg h, hact]

/-- Unfolding `upGo` on a successfully applied migration. -/
theorem upGo_apply (act : ActOracle) (c : Nat) (m : Migration) (rest : List Migration)
    (n : Nat) (led : Ledger) (h : ¬ (m.id ≤ c ∨ ¬ m.hasUp)) (hact : act m.id = none) :
    upGo act c (m :: rest) (n + 1) led =
      ⟨(upGo act c rest n (SetVersion led m.id m.description)).ledger,
       m.id :: (upGo act c rest n (SetVersion led m.id m.description)).trace,
       (m.id, SetVersion led m.id m.description) ::
         (upGo act c rest n (SetVersion led m.id m.description)).snaps,
       (upGo act c rest n (SetVersion led m.id m.description)).result⟩ := by
  rw [upGo, if_neg h, hact]

/-- Unfolding `downLoop1` on a skipped migration. -/
theorem downLoop1_skip (act : ActOracle) (c : Nat) (m : Migration) (rest : List Migration)
    (n : Nat) (led : Ledger) (h : m.id ≤ c ∨ ¬ m.hasDown) :
    downLoop1 act c (m :: rest) (n + 1) led = downLoop1 act c rest n led := by
  rw [downLoop1, if_pos h]

/-- Unfolding `downLoop1` on a failing backward action. -/
theorem downLoop1_fail (act : ActOracle) (c : Nat) (m : Migration) (rest : List Migration)
    (n : Nat) (led : Ledger) (e : String) (h : ¬ (m.id ≤ c ∨ ¬ m.hasDown))
    (hact : act m.id = some e) :
    downLoop1 act c (m :: rest) (n + 1) led = (⟨led, [m.id], [], .actionErr c e⟩, n) := by
  rw [downLoop1, if_neg h, hact]

/-- Unfolding `downLoop1` on a successfully reverted migration. -/
theorem downLoop1_apply (act : ActOracle) (c : Nat) (m : Migration) (rest : List Migration)
    (n : Nat) (led : Ledger) (h : ¬ (m.id ≤ c ∨ ¬ m.hasDown)) (hact : act m.id = none) :
    downLoop1 act c (m :: rest) (n + 1) led =
      (⟨(downLoop1 act c rest n (SetVersion led m.id m.description)).1.ledger,
        m.id :: (downLoop1 act c rest n (SetVersion led m.id m.description)).1.trace,
        (m.id, SetVersion led m.id m.description) ::
          (downLoop1 act c rest n (SetVersion led m.id m.description)).1.snaps,
        (downLoop1 act c rest n (SetVersion led m.id m.description)).1.result⟩,
       (downLoop1 act c rest n (SetVersion led m.id m.description)).2) := by
  rw [downLoop1, if_neg h, hact]

/-- A fold of `max` over ids with an arbitrary seed. -/
theorem currentVersion_foldr_seed (l : Ledger) (b : Nat) :
    l.foldr (fun r acc => max r.id acc) b =
      max (l.foldr (fun r acc => max r.id acc) 0) b := by
  induction l with
  | nil => simp
  | cons r rs ih => simp only [List.foldr_cons, ih]; omega

/-- A `SetVersion` write moves the derived current version to the
maximum of the old one and the written id. -/
theorem currentVersion_SetVersion (led : Ledger) (v : Nat) (d : String) :
    currentVersion (SetVersion led v d) = max (currentVersion led) v := by
  unfold SetVersion currentVersion
  rw [List.foldr_append]
  simp only [List.foldr_cons, List.foldr_nil]
  rw [currentVersion_foldr_seed]
  omega

/-- Snapshot invariant of the `Up` loop: started on an ascending-sorted
list from a ledger whose current version cannot exceed any eligible
migration's id, every successful step leaves the derived current version
equal to the id it wrote. -/
theorem upGo_snaps_current (act : ActOracle) (c : Nat) :
    ∀ (l : List Migration) (n : Nat) (led : Ledger),
      List.Sorted ascLe l →
      (∀ m ∈ l, c < m.id → currentVersion led ≤ m.id) →
      ∀ p ∈ (upGo act c l n led).snaps, currentVersion p.2 = p.1 := by
  intro l
  induction l with
  | nil => intro n led _ _ p hp; cases hp
  | cons m rest ih =>
    intro n led hsort hbound p hp
    cases n with
    | zero => cases hp
    | succ k =>
      by_cases hskip : m.id ≤ c ∨ ¬ m.hasUp
      · rw [upGo_skip act c m rest k led hskip] at hp
        exact ih k led hsort.of_cons
          (fun m' hm' h' => hbound m' (List.mem_cons_of_mem _ hm') h') p hp
      · have hc : c < m.id := by
          rcases Nat.lt_or_ge c m.id with h | h
          · exact h
          · exact absurd (Or.inl h) hskip
        cases hact : act m.id with
        | some e =>
          rw [upGo_fail act c m rest k led e hskip hact] at hp
          cases hp
        | none =>
          rw [upGo_apply act c m rest k led hskip hact] at hp
          have hcv : currentVersion (SetVersion led m.id m.description) = m.id := by
            rw [currentVersion_SetVersion]
            exact Nat.max_eq_right (hbound m (List.mem_cons_self m rest) hc)
          rcases List.mem_cons.mp hp with hp | hp
          · rw [hp]; exact hcv
          · refine ih k (SetVersion led m.id m.description) hsort.of_cons ?_ p hp
            intro m' hm' _
            rw [hcv]
            exact List.rel_of_sorted_cons hsort m' hm'

/-- After every successful `Up` step for migration `m` — the forward
action succeeded and the `SetVersion` write went through — the derived
current version of the ledger as recorded at that instant (greatest
`_id`, the derivation migrate.go 26-30 documents) is exactly `m.id`.
What the `Version()` method itself returns is a separate matter: as
written it panics (see `migrator.Version`). -/
theorem up_step_sets_version (ms : List Migration) (act : ActOracle) (led : Ledger)
    (n : Int) (p : Nat × Ledger) (hp : p ∈ (Up ms act led n).snaps) :
    currentVersion p.2 = p.1 := by
  refine upGo_snaps_current act (currentVersion led) (sortAsc ms)
    (clampN n ms.length) led ?_ ?_ p hp
  · exact List.sorted_insertionSort ascLe ms
  · intro m _ h'
    exact Nat.le_of_lt h'

/-- Instance of `up_step_sets_version` at a concrete input:
`Up(AllAvailable)` over `{id 2}` from an empty ledger performs one
successful step, whose recorded ledger has current version `2`. -/
theorem up_step_sets_version_witness :
    (2, [(⟨2, "x"⟩ : Version)]) ∈
      (Up [⟨2, "x", true, true⟩] (fun _ => none) [] (-1)).snaps ∧
    currentVersion [(⟨2, "x"⟩ : Version)] = 2 :=
  ⟨by decide, up_step_sets_version [⟨2, "x", true, true⟩] (fun _ => none) [] (-1)
    (2, [⟨2, "x"⟩]) (by decide)⟩

/-- C5: after a successful `Up` step for migration `m`, `Version()` does
not return `m.id` — it returns nothing at all.  Here `Up(AllAvailable)`
over `{id 2}` from the empty ledger performs a successful step for
migration `2` (the `{id 2}` record is written and snapshotted), yet the
`Version()` call on the resulting ledger panics "implement me", because
`migrator.Version` delegates to the unimplemented `versions.Current`; in
particular it does not return the `{id 2}` record.  The derived recorded
version does equal `m.id` after every successful step
(`up_step_sets_version`); the claim fails only through the panicking
`Version()` path. -/
theorem c5_version_after_up_step_panics :
    (2, [(⟨2, "x"⟩ : Version)]) ∈
      (Up [⟨2, "x", true, true⟩] (fun _ => none) [] (-1)).snaps ∧
    migrator.Version [(⟨2, "x"⟩ : Version)] = .panicked "implement me" ∧
    migrator.Version [(⟨2, "x"⟩ : Version)] ≠ .ok (some ⟨2, "x"⟩) := by
  decide

/-- The ledger as it stood after the last successful step of a run, or
the initial ledger when there was none: the reference point for "no
record was written for the failed step". -/
def lastLedger (led : Ledger) : List (Nat × Ledger) → Ledger
  | [] => led
  | p :: rest => lastLedger p.2 rest

/-- Failure analysis of the `Up` loop: an `actionErr` result names the
version the loop migrated from, its cause is the error reported by the
action of the last migration invoked, and the final ledger is exactly
the ledger recorded before the failed step. -/
theorem upGo_failure (act : ActOracle) (c : Nat) :
    ∀ (l : List Migration) (n : Nat) (led : Ledger) (v : Nat) (e : String),
      (upGo act c l n led).result = .actionErr v e →
      v = c ∧
      (∃ w, (upGo act c l n led).trace.getLast? = some w ∧ act w = some e) ∧
      (upGo act c l n led).ledger = lastLedger led (upGo act c l n led).snaps := by
  intro l
  induction l with
  | nil =>
    intro n led v e h
    rw [upGo_nil] at h
    cases h
  | cons m rest ih =>
    intro n led v e h
    cases n with
    | zero =>
      rw [upGo_zero] at h
      cases h
    | succ k =>
      by_cases hskip : m.id ≤ c ∨ ¬ m.hasUp
      · rw [upGo_skip act c m rest k led hskip] at h ⊢
        exact ih k led v e h
      · cases hact : act m.id with
        | some e0 =>
          rw [upGo_fail act c m rest k led e0 hskip hact] at h ⊢
          have h' : RunResult.actionErr c e0 = RunResult.actionErr v e := h
          injection h' with h1 h2
          exact ⟨h1.symm, ⟨m.id, rfl, by rw [hact, h2]⟩, rfl⟩
        | none =>
          rw [upGo_apply act c m rest k led hskip hact] at h ⊢
          have h' : (upGo act c rest k (SetVersion led m.id m.description)).result =
              .actionErr v e := h
          obtain ⟨hv, ⟨w, hw1, hw2⟩, hled⟩ :=
            ih k (SetVersion led m.id m.description) v e h'
          refine ⟨hv, ⟨w, ?_, hw2⟩, ?_⟩
          · show (m.id :: (upGo act c rest k (SetVersion led m.id m.description)).trace).getLast?
              = some w
            cases htr : (upGo act c rest k (SetVersion led m.id m.description)).trace with
            | nil => rw [htr] at hw1; cases hw1
            | cons b t =>
              rw [htr] at hw1
              rw [List.getLast?_cons_cons]
              exact hw1
          · show (upGo act c rest k (SetVersion led m.id m.description)).ledger =
              lastLedger led ((m.id, SetVersion led m.id m.description) ::
                (upGo act c rest k (SetVersion led m.id m.description)).snaps)
            exact hled

/-- When a forward action fails during `Up`, the call aborts at once
with an error wrapping the underlying cause and naming the version
migrated from (the pre-call current version), and no ledger record is
written for the failed step: the final ledger is exactly the ledger as
recorded before that step.  What the `Version()` method would then
report is a separate matter: as written it panics (see
`migrator.Version`). -/
theorem up_failure_aborts (ms : List Migration) (act : ActOracle) (led : Ledger)
    (n : Int) (v : Nat) (e : String)
    (h : (Up ms act led n).result = .actionErr v e) :
    v = currentVersion led ∧
    (∃ w, (Up ms act led n).trace.getLast? = some w ∧ act w = some e) ∧
    (Up ms act led n).ledger = lastLedger led (Up ms act led n).snaps :=
  upGo_failure act (currentVersion led) (sortAsc ms) (clampN n ms.length) led v e h

/-- Instance of `up_failure_aborts` at a concrete input: over `{id 2}`
whose forward action reports "boom", `Up(AllAvailable)` from the empty
ledger returns the wrapped action error naming version `0` and writes
nothing. -/
theorem up_failure_aborts_witness :
    (Up [⟨2, "x", true, true⟩] (fun _ => some "boom") [] (-1)).result =
      .actionErr 0 "boom" ∧
    (0 = currentVersion ([] : Ledger) ∧
     (∃ w, (Up [⟨2, "x", true, true⟩] (fun _ => some "boom") [] (-1)).trace.getLast? =
        some w ∧ (fun _ => some "boom") w = some "boom") ∧
     (Up [⟨2, "x", true, true⟩] (fun _ => some "boom") [] (-1)).ledger =
       lastLedger [] (Up [⟨2, "x", true, true⟩] (fun _ => some "boom") [] (-1)).snaps) :=
  ⟨by decide, up_failure_aborts [⟨2, "x", true, true⟩] (fun _ => some "boom") [] (-1)
    0 "boom" (by decide)⟩

/-- C6: when a forward action fails during `Up`, the call does abort at
once with an error wrapping the underlying cause and writes no ledger
record for the failed step — here `Up(AllAvailable)` over `{id 2}` whose
forward action reports "boom" returns the wrapped action error and
leaves the empty ledger empty — but `Version()` does not then report the
value recorded before that step: `migrator.Version` delegates to the
unimplemented `versions.Current` and panics "implement me" instead of
reporting the pre-step state (here, the no-version result).  The abort,
the wrapping and the no-write conjuncts hold in general
(`up_failure_aborts`); the claim fails only through the panicking
`Version()` path. -/
theorem c6_version_after_failed_step_panics :
    (Up [⟨2, "x", true, true⟩] (fun _ => some "boom") [] (-1)).result =
      .actionErr 0 "boom" ∧
    (Up [⟨2, "x", true, true⟩] (fun _ => some "boom") [] (-1)).ledger = [] ∧
    migrator.Version [] = .panicked "implement me" ∧
    migrator.Version [] ≠ .ok none := by
  decide

/-- Every id in the `upGo` trace belongs to a migration of the list and
exceeds the version `c` the loop was started from. -/
theorem upGo_trace_gt (act : ActOracle) (c : Nat) :
    ∀ (l : List Migration) (n : Nat) (led : Ledger) (v : Nat),
      v ∈ (upGo act c l n led).trace → c < v := by
  intro l
  induction l with
  | nil => intro n led v hv; cases hv
  | cons m rest ih =>
    intro n led v hv
    cases n with
    | zero => cases hv
    | succ k =>
      by_cases hskip : m.id ≤ c ∨ ¬ m.hasUp
      · rw [upGo, if_pos hskip] at hv
        exact ih k led v hv
      · push_neg at hskip
        rw [upGo, if_neg (by push_neg; exact hskip)] at hv
        cases hact : act m.id with
        | some e =>
          rw [hact] at hv
          simp only [List.mem_singleton] at hv
          subst hv
          exact hskip.1
        | none =>
          rw [hact] at hv
          simp only [List.mem_cons] at hv
          rcases hv with hv | hv
          · subst hv; exact hskip.1
          · exact ih k _ v hv

/-- The ids invoked by the `Up` loop form a sublist of the ids of the
list it walks. -/
theorem upGo_trace_sublist (act : ActOracle) (c : Nat) :
    ∀ (l : List Migration) (n : Nat) (led : Ledger),
      List.Sublist (upGo act c l n led).trace (l.map (fun m => m.id)) := by
  intro l
  induction l with
  | nil =>
    intro n led
    rw [upGo_nil]
    exact List.nil_sublist _
  | cons m rest ih =>
    intro n led
    cases n with
    | zero =>
      rw [upGo_zero]
      exact List.nil_sublist _
    | succ k =>
      by_cases hskip : m.id ≤ c ∨ ¬ m.hasUp
      · rw [upGo_skip act c m rest k led hskip]
        exact (ih k led).cons m.id
      · cases hact : act m.id with
        | some e =>
          rw [upGo_fail act c m rest k led e hskip hact]
          exact (List.nil_sublist _).cons₂ m.id
        | none =>
          rw [upGo_apply act c m rest k led hskip hact]
          exact (ih k (SetVersion led m.id m.description)).cons₂ m.id

/-- The ids invoked by the first `Down` loop form a sublist of the ids
of the list it walks. -/
theorem downLoop1_trace_sublist (act : ActOracle) (c : Nat) :
    ∀ (l : List Migration) (n : Nat) (led : Ledger),
      List.Sublist (downLoop1 act c l n led).1.trace (l.map (fun m => m.id)) := by
  intro l
  induction l with
  | nil =>
    intro n led
    rw [downLoop1_nil]
    exact List.nil_sublist _
  | cons m rest ih =>
    intro n led
    cases n with
    | zero =>
      rw [downLoop1_zero]
      exact List.nil_sublist _
    | succ k =>
      by_cases hskip : m.id ≤ c ∨ ¬ m.hasDown
      · rw [downLoop1_skip act c m rest k led hskip]
        exact (ih k led).cons m.id
      · cases hact : act m.id with
        | some e =>
          rw [downLoop1_fail act c m rest k led e hskip hact]
          exact (List.nil_sublist _).cons₂ m.id
        | none =>
          rw [downLoop1_apply act c m rest k led hskip hact]
          exact (ih k (SetVersion led m.id m.description)).cons₂ m.id

/-- When the first `Down` loop finishes without error on a budget no
larger than its list, the budget is fully drained: every iteration,
skipping or not, decremented it. -/
theorem downLoop1_ok_budget (act : ActOracle) (c : Nat) :
    ∀ (l : List Migration) (n : Nat) (led : Ledger), n ≤ l.length →
      (downLoop1 act c l n led).1.result = .ok → (downLoop1 act c l n led).2 = 0 := by
  intro l
  induction l with
  | nil =>
    intro n led hn _
    rw [downLoop1_nil]
    exact Nat.le_zero.mp hn
  | cons m rest ih =>
    intro n led hn hok
    cases n with
    | zero => rw [downLoop1_zero]
    | succ k =>
      have hk : k ≤ rest.length := Nat.lt_succ_iff.mp (Nat.lt_of_lt_of_le (Nat.lt_succ_self k) hn)
      by_cases hskip : m.id ≤ c ∨ ¬ m.hasDown
      · rw [downLoop1_skip act c m rest k led hskip] at hok ⊢
        exact ih k led hk hok
      · cases hact : act m.id with
        | some e =>
          rw [downLoop1_fail act c m rest k led e hskip hact] at hok
          cases hok
        | none =>
          rw [downLoop1_apply act c m rest k led hskip hact] at hok ⊢
          exact ih k (SetVersion led m.id m.description) hk hok

/-- With a zero budget the second `Down` loop does nothing. -/
theorem downLoop2_zero_budget (act : ActOracle) (c : Nat) (arr : List Migration)
    (fuel p : Nat) (led : Ledger) :
    downLoop2 act c arr fuel p 0 led = ⟨led, [], [], .ok⟩ := by
  cases fuel with
  | zero => rfl
  | succ i => rw [downLoop2, if_pos (Nat.zero_le p)]

/-- The clamp never exceeds the set size. -/
theorem clampN_le (n : Int) (len : Nat) : clampN n len ≤ len := by
  unfold clampN
  split
  · exact Nat.le_refl len
  · rename_i h
    push_neg at h
    omega

/-- The whole of a `Down` call's invocation trace comes from its first
loop: the first loop always drains the budget (or aborts), leaving the
second loop's `p < n` guard false from the start. -/
theorem Down_trace_eq (ms : List Migration) (act : ActOracle) (led : Ledger) (n : Int) :
    (Down ms act led n).trace =
      (downLoop1 act (currentVersion led) (sortDesc ms) (clampN n ms.length) led).1.trace := by
  unfold Down
  cases ho : (downLoop1 act (currentVersion led) (sortDesc ms) (clampN n ms.length) led).1.result with
  | ok =>
    have hbudget : (downLoop1 act (currentVersion led) (sortDesc ms)
        (clampN n ms.length) led).2 = 0 := by
      refine downLoop1_ok_budget act (currentVersion led) (sortDesc ms)
        (clampN n ms.length) led ?_ ho
      rw [sortDesc, List.length_insertionSort]
      exact clampN_le n ms.length
    simp only [ho, hbudget, downLoop2_zero_budget]
    exact List.append_nil _
  | actionErr v e => simp only [ho]
  | rawErr e => simp only [ho]

/-- C7: within a single `Up` call and a single `Down` call over a set
with pairwise distinct ids, each migration's action (forward
respectively backward) is invoked at most once: the invocation traces
carry no duplicate id. -/
theorem at_most_once (ms : List Migration) (actU actD : ActOracle)
    (ledU ledD : Ledger) (nU nD : Int)
    (h : (ms.map (fun m => m.id)).Nodup) :
    (Up ms actU ledU nU).trace.Nodup ∧ (Down ms actD ledD nD).trace.Nodup := by
  constructor
  · have hsub := upGo_trace_sublist actU (currentVersion ledU) (sortAsc ms)
      (clampN nU ms.length) ledU
    have hperm : List.Perm ((sortAsc ms).map (fun m => m.id)) (ms.map (fun m => m.id)) :=
      (List.perm_insertionSort ascLe ms).map _
    exact List.Nodup.sublist hsub (hperm.nodup_iff.mpr h)
  · rw [Down_trace_eq]
    have hsub := downLoop1_trace_sublist actD (currentVersion ledD) (sortDesc ms)
      (clampN nD ms.length) ledD
    have hperm : List.Perm ((sortDesc ms).map (fun m => m.id)) (ms.map (fun m => m.id)) :=
      (List.perm_insertionSort descLe ms).map _
    exact List.Nodup.sublist hsub (hperm.nodup_iff.mpr h)

/-- Witness for C7 at a concrete input: over the set `{id 1, id 2}` with
distinct ids, one `Up(AllAvailable)` call and one `Down(AllAvailable)`
call each invoke no action twice. -/
theorem at_most_once_witness :
    (([(⟨1, "a", true, true⟩ : Migration), ⟨2, "b", true, true⟩].map
      (fun m => m.id))).Nodup ∧
    (Up [⟨1, "a", true, true⟩, ⟨2, "b", true, true⟩] (fun _ => none) [] (-1)).trace.Nodup ∧
    (Down [⟨1, "a", true, true⟩, ⟨2, "b", true, true⟩] (fun _ => none) [] (-1)).trace.Nodup :=
  ⟨by decide,
   (at_most_once [⟨1, "a", true, true⟩, ⟨2, "b", true, true⟩] (fun _ => none)
     (fun _ => none) [] [] (-1) (-1) (by decide)).1,
   (at_most_once [⟨1, "a", true, true⟩, ⟨2, "b", true, true⟩] (fun _ => none)
     (fun _ => none) [] [] (-1) (-1) (by decide)).2⟩

/-- C4: within any `Up(ctx, n)` call, every migration whose forward
action gets invoked has an id strictly greater than the version recorded
in the ledger before the call began; equivalently, `Up` never invokes
the forward action of a migration with `id ≤` that version. -/
theorem up_never_invokes_below_current (ms : List Migration) (act : ActOracle)
    (led : Ledger) (n : Int) (v : Nat) (hv : v ∈ (Up ms act led n).trace) :
    currentVersion led < v :=
  upGo_trace_gt act (currentVersion led) (sortAsc ms) (clampN n ms.length) led v hv

/-- Witness for C4 at a concrete input: from an empty ledger (version
`0`), `Up(AllAvailable)` over the set `{id 2}` invokes the action of
migration `2`, and the theorem yields `0 < 2`. -/
theorem up_never_invokes_below_current_witness :
    2 ∈ (Up [⟨2, "x", true, true⟩] (fun _ => none) [] (-1)).trace ∧
    currentVersion ([] : Ledger) < 2 :=
  ⟨by decide, up_never_invokes_below_current [⟨2, "x", true, true⟩]
    (fun _ => none) [] (-1) 2 (by decide)⟩

/-- Writing one slice of the store leaves every other slice as it
was. -/
theorem readSlice_set_ne (h : Heap) (i j : Nat) (l : List Migration) (hne : i ≠ j) :
    readSlice (h.set i l) j = readSlice h j := by
  unfold readSlice
  rw [List.getD_eq_getElem?_getD, List.getD_eq_getElem?_getD, List.getElem?_set_ne hne]

/-- Allocations extend the store without disturbing existing slices. -/
theorem readSlice_append_left (h t : Heap) (s : Nat) (hs : s < h.length) :
    readSlice (h ++ t) s = readSlice h s := by
  unfold readSlice
  rw [List.getD_eq_getElem?_getD, List.getD_eq_getElem?_getD, List.getElem?_append_left hs]

/-- C10: `NewMigrate` stores a clone of the caller-supplied migration
slice, so the in-place sorting `Up` and `Down` perform on the stored
slice — ascending then descending — never reorders the slice the caller
passed to construction: the migrator holds a different slice, and the
caller's slice reads back unchanged. -/
theorem new_migrate_clone_shields_caller (h : Heap) (s : Nat) (hs : s < h.length) :
    (NewMigrate h s).2.migrations ≠ s ∧
    readSlice (sortSliceDesc (sortSliceAsc (NewMigrate h s).1
      (NewMigrate h s).2.migrations) (NewMigrate h s).2.migrations) s = readSlice h s := by
  have hmig : (NewMigrate h s).2.migrations = h.length := rfl
  have hne : (NewMigrate h s).2.migrations ≠ s := by
    rw [hmig]
    omega
  refine ⟨hne, ?_⟩
  simp only [sortSliceDesc, sortSliceAsc]
  rw [readSlice_set_ne _ _ _ _ hne, readSlice_set_ne _ _ _ _ hne]
  have h1 : (NewMigrate h s).1 = h ++ [readSlice h s] := rfl
  rw [h1]
  exact readSlice_append_left h [readSlice h s] s hs

/-- Witness for C10 at a concrete input: a store holding one caller
slice of two unsorted migrations; after construction and both sorts, the
caller's slice reads back as it was. -/
theorem new_migrate_clone_shields_caller_witness :
    (0 : Nat) < ([[(⟨1, "a", true, true⟩ : Migration), ⟨0, "b", true, true⟩]] : Heap).length ∧
    ((NewMigrate [[(⟨1, "a", true, true⟩ : Migration), ⟨0, "b", true, true⟩]] 0).2.migrations ≠ 0 ∧
     readSlice (sortSliceDesc (sortSliceAsc
       (NewMigrate [[(⟨1, "a", true, true⟩ : Migration), ⟨0, "b", true, true⟩]] 0).1
       (NewMigrate [[(⟨1, "a", true, true⟩ : Migration), ⟨0, "b", true, true⟩]] 0).2.migrations)
       (NewMigrate [[(⟨1, "a", true, true⟩ : Migration), ⟨0, "b", true, true⟩]] 0).2.migrations) 0 =
     readSlice [[(⟨1, "a", true, true⟩ : Migration), ⟨0, "b", true, true⟩]] 0) :=
  ⟨by decide, new_migrate_clone_shields_caller
    [[(⟨1, "a", true, true⟩ : Migration), ⟨0, "b", true, true⟩]] 0 (by decide)⟩

end Migrate
